import Mathlib

/-!
# SandpackChat core — shallow embedding

Verification development for the agent-orchestration core of the
SandpackChat repository.  The definitions below are translated from the
TypeScript source:

* the tool dispatcher `handleToolCall` and the conversation loop
  `processToolCalls` / `processUserMessage` / `sendMessage`
  (hook `useSandpackAgent`);
* the change-tracking ledger of `SyncedCodeEditor` (`App.tsx`):
  `prevCodeMap` / `window.changedFilePaths`;
* the git subsystem of `useGit`: `synchronizeFiles`, `generateDiff`,
  `checkFileModified`.

JavaScript strings are Lean `String`s with executable character-list
implementations of `split('\n')`, `includes`, `toLowerCase` and
`startsWith`; objects keyed by path are association lists in insertion
order, and thrown exceptions are `Except.error`.
-/

namespace SandpackChat

/-- Helper for `splitLines`: `acc` holds the current line, reversed. -/
def splitLinesAux : List Char → List Char → List String
  | [], acc => [String.mk acc.reverse]
  | c :: rest, acc =>
    if c = '\n' then String.mk acc.reverse :: splitLinesAux rest []
    else splitLinesAux rest (c :: acc)

/-- JS `s.split('\n')` (on the empty string it yields `[""]`, as in JS). -/
def splitLines (s : String) : List String := splitLinesAux s.data []

/-- Does the character list `pre` occur at the head of `l`?
(the positional check behind JS `String.prototype.includes`). -/
def charsStart : List Char → List Char → Bool
  | _, [] => true
  | [], _ :: _ => false
  | a :: l, b :: pre => a = b && charsStart l pre

/-- Substring occurrence on character lists. -/
def charsHave : List Char → List Char → Bool
  | l, sub => if charsStart l sub then true else
      match l with
      | [] => false
      | _ :: l' => charsHave l' sub

/-- JS `s.includes(sub)`. -/
def jsIncludes (s sub : String) : Bool := charsHave s.data sub.data

/-- JS `s.toLowerCase()` (character-wise lowering). -/
def jsToLower (s : String) : String := String.mk (s.data.map Char.toLower)

/-- JS `s.startsWith(pre)`. -/
def jsStartsWith (s pre : String) : Bool := charsStart s.data pre.data

/-- A workspace buffer / file store: path → content, in insertion order
(the JS object `files` of the sandpack state). -/
abbrev FileMap := List (String × String)

/-- JS `files[path]` (first binding wins, like a JS object's unique keys). -/
def getFile : FileMap → String → Option String
  | [], _ => none
  | e :: rest, p => if e.1 = p then some e.2 else getFile rest p

/-- Write `p ↦ c`: update in place if the key exists (JS objects keep the
original key position), otherwise append. -/
def setFile (fm : FileMap) (p c : String) : FileMap :=
  match fm with
  | [] => [(p, c)]
  | e :: rest => if e.1 = p then (p, c) :: rest else e :: setFile rest p c

/-- Remove a key (sandpack `deleteFile`). -/
def removeFile (fm : FileMap) (p : String) : FileMap :=
  fm.filter (fun e => !(e.1 = p))

/-- The keys of the buffer, in order (JS `Object.keys(files)`). -/
def fileKeys (fm : FileMap) : List String := fm.map (·.1)

/-! ## Tool results (interface `ToolResult` of `useSandpackAgent`) -/

/-- One snippet reported by `codebase_search`
(`{lineNumber, context, contextRange}`). -/
structure Snippet where
  lineNumber : Nat
  context : String
  rangeStart : Nat
  rangeEnd : Nat
  deriving DecidableEq, Repr

/-- One per-file result of `codebase_search`. -/
structure SearchHit where
  file : String
  matchCount : Nat
  snippets : List Snippet
  deriving DecidableEq, Repr

/-- The `ToolResult` envelope.  Fields a given handler does not set stay
`none` (absent JS properties). -/
structure ToolResult where
  status : String
  message : Option String := none
  error : Option String := none
  oldContent : Option String := none
  newContent : Option String := none
  content : Option String := none
  deletedContent : Option String := none
  lineCount : Option Nat := none
  lineRangeStart : Option Int := none
  lineRangeEnd : Option Int := none
  totalLines : Option Nat := none
  fileList : Option (List String) := none
  query : Option String := none
  hits : Option (List SearchHit) := none
  file : Option String := none
  command : Option String := none
  output : Option String := none
  searchTerm : Option String := none
  deriving DecidableEq, Repr

/-! ## Tool invocations

Structured arguments of the tools the dispatcher of `useSandpackAgent`
handles (`handleToolCall`'s `switch (name)`).  `unknown` stands for any
name outside the table. -/

inductive ToolInput where
  | editFile (file_path content : String)
  | createFile (file_path content : String)
  | deleteFile (file_path : String)
  | readFile (target_file : String) (start_line end_line : Int)
      (entire : Bool)
  | fileSearch (query : String)
  | codebaseSearch (query : String) (target_directories : List String)
  | reapply (target_file : String)
  | runTerminalCmd (command : String)
  | webSearch (search_term : String)
  | diffHistory
  | unknown (name : String)
  deriving DecidableEq, Repr

/-- Snippets for one file in `codebase_search`: every 1-indexed line whose
lowercased text contains the lowercased query, with a ±2-line context
window clamped to the file. -/
def codebaseSnippets (queryLower : String) (fileLines : List String) :
    List Snippet :=
  fileLines.enum.filterMap (fun e =>
    let lineIndex := e.1
    if jsIncludes (jsToLower e.2) queryLower then
      let contextStart := max 0 (lineIndex - 2)
      let contextEnd := min (fileLines.length - 1) (lineIndex + 2)
      some { lineNumber := lineIndex + 1
             context := String.intercalate "\n"
               ((fileLines.drop contextStart).take (contextEnd + 1 - contextStart))
             rangeStart := contextStart + 1
             rangeEnd := contextEnd + 1 }
    else none)

/-- The per-file body of the `codebase_search` loop: a file whose
lowercased content contains the lowercased query contributes a result
carrying its matching-line snippets, but only when at least one single
line matches (`matchingLines.length > 0`). -/
def codebaseFileHit (files : FileMap) (queryLower : String) (p : String) :
    Option SearchHit :=
  let fileContent := (getFile files p).getD ""
  if jsIncludes (jsToLower fileContent) queryLower then
    let snips := codebaseSnippets queryLower (splitLines fileContent)
    if snips.isEmpty then none
    else some { file := p, matchCount := snips.length, snippets := snips }
  else none

/-- The dispatcher `handleToolCall(name, input)` of `useSandpackAgent`.
Returns the `ToolResult` plus the updated buffer; a JS `throw` is
`Except.error`.  (`sandpack.runSandpack()` and the settle `delay(50)` are
external effects with no bearing on the buffer.) -/
def handleToolCall (files : FileMap) (inp : ToolInput) :
    Except String (ToolResult × FileMap) :=
  match inp with
  | .editFile file_path content =>
    match getFile files file_path with
    | some oldContent =>
      .ok ({ status := "success"
             message := some s!"File {file_path} updated successfully"
             oldContent := some oldContent
             newContent := some content },
           setFile files file_path content)
    | none => .error s!"File {file_path} does not exist"
  | .createFile file_path content =>
    .ok ({ status := "success"
           message := some s!"File {file_path} created successfully"
           content := some content },
         setFile files file_path content)
  | .deleteFile file_path =>
    match getFile files file_path with
    | some deletedContent =>
      .ok ({ status := "success"
             message := some s!"File {file_path} deleted successfully"
             deletedContent := some deletedContent },
           removeFile files file_path)
    | none => .error s!"File {file_path} does not exist"
  | .readFile target_file start_line end_line entire =>
    match getFile files target_file with
    | some fileContent =>
      let fileLines := splitLines fileContent
      if entire then
        .ok ({ status := "success"
               message := some s!"File {target_file} read successfully"
               content := some fileContent
               lineCount := some fileLines.length }, files)
      else
        let startIdx : Int := max 0 (start_line - 1)
        let endIdx : Int := min ((fileLines.length : Int) - 1) (end_line - 1)
        if startIdx > endIdx then
          .error s!"Invalid line range: {start_line} to {end_line}"
        else
          let selected :=
            (fileLines.drop startIdx.toNat).take (endIdx.toNat + 1 - startIdx.toNat)
          .ok ({ status := "success"
                 message := some
                   s!"File {target_file} lines {start_line} to {end_line} read successfully"
                 content := some (String.intercalate "\n" selected)
                 lineRangeStart := some start_line
                 lineRangeEnd := some end_line
                 totalLines := some fileLines.length }, files)
    | none => .error s!"File {target_file} does not exist"
  | .fileSearch query =>
    let matching := (fileKeys files).filter
      (fun p => jsIncludes (jsToLower p) (jsToLower query))
    .ok ({ status := "success"
           message := some s!"Found {matching.length} files matching \x22{query}\x22"
           query := some query
           fileList := some matching }, files)
  | .codebaseSearch query target_directories =>
    let searchable := (fileKeys files).filter (fun p =>
      target_directories.isEmpty ||
        target_directories.any (fun d => jsStartsWith p d))
    let results := searchable.filterMap (codebaseFileHit files (jsToLower query))
    .ok ({ status := "success"
           message := some
             s!"Found {results.length} files with content matching \x22{query}\x22"
           query := some query
           hits := some results }, files)
  | .reapply target_file =>
    .ok ({ status := "success"
           message := some s!"Attempted to reapply last edit to {target_file}"
           file := some target_file }, files)
  | .runTerminalCmd command =>
    .ok ({ status := "success"
           message := some "Terminal command execution simulated"
           command := some command
           output := some s!"[Simulated output] Command execution for: {command}" },
         files)
  | .webSearch search_term =>
    .ok ({ status := "success"
           message := some "Web search simulated"
           searchTerm := some search_term }, files)
  | .diffHistory =>
    .ok ({ status := "success"
           message := some "Diff history retrieved (simulated)" }, files)
  | .unknown name => .error s!"Unknown tool: {name}"

/-- The error envelope built by `processToolCalls`'s `catch` branch. -/
def errResult (e : String) : ToolResult :=
  { status := "error", error := some s!"Failed to execute tool: {e}" }

/-! ## Change-tracking ledger (`SyncedCodeEditor` in `App.tsx`)

`prevCode` is `prevCodeMap`, `dirty` is `window.changedFilePaths` (a JS
`Set`, kept here as an insertion-ordered duplicate-free list). -/

structure Ledger where
  prevCode : FileMap
  dirty : List String
  deriving DecidableEq, Repr

/-- Add a path to the dirty set (JS `Set.add`: no duplicates, keeps
insertion order). -/
def addDirty (l : List String) (p : String) : List String :=
  if p ∈ l then l else l ++ [p]

/-- The marking effect of `SyncedCodeEditor`: when the active file's code
changes, compare against `prevCodeMap`; only a different content updates
the map and dirties the path.  The outer JS guard `if (activeFile && code)`
makes an empty path or empty content a no-op. -/
def markFileChanged (led : Ledger) (p c : String) : Ledger :=
  if p = "" || c = "" then led
  else if getFile led.prevCode p = some c then led
  else { prevCode := setFile led.prevCode p c, dirty := addDirty led.dirty p }

/-- Buffer plus ledger: the state the dispatcher and the change tracker
share. -/
structure WorkState where
  files : FileMap
  ledger : Ledger
  deriving DecidableEq, Repr

/-- One dispatched tool call together with its tracking effect: a
successful buffer write flows into `markFileChanged` (the
`SyncedCodeEditor` rule applied to the mutated path); a thrown handler is
caught into an error `ToolResult` and touches nothing. -/
def dispatchTracked (st : WorkState) (inp : ToolInput) :
    ToolResult × WorkState :=
  match handleToolCall st.files inp with
  | .error e => (errResult e, st)
  | .ok (r, files') =>
    let ledger' := match inp with
      | .editFile p c => markFileChanged st.ledger p c
      | .createFile p c => markFileChanged st.ledger p c
      | _ => st.ledger
    (r, { files := files', ledger := ledger' })

/-! ## Conversation loop (`processToolCalls` of `useSandpackAgent`)

The completion client is modelled by a script: a list of replies consumed
one per call.  A reply past the end of the script stands for a response
without usable content (the code's fallback for an unexpected format:
no text, no tool invocations). -/

/-- The four message variants of the hook's `Message` union. -/
inductive Msg where
  | userMsg (content : String)
  | assistantMsg (content : String)
  | toolCallMsg (id : String) (input : ToolInput)
  | toolResultMsg (toolCallId : String) (result : ToolResult)
  deriving DecidableEq, Repr

/-- A parsed completion reply: optional text (JS falsy `""` means none)
and the tool invocations, each with its id. -/
structure Reply where
  text : String := ""
  tools : List (String × ToolInput) := []
  deriving DecidableEq, Repr

/-- Observable events of a turn: a tool execution (with whether the
handler succeeded) and a completion call being issued. -/
inductive AgentEvent where
  | toolExec (id : String) (ok : Bool)
  | llmCall
  deriving DecidableEq, Repr

def isLlmCall : AgentEvent → Bool
  | .llmCall => true
  | _ => false

def isOkExec : AgentEvent → Bool
  | .toolExec _ true => true
  | _ => false

def isExec : AgentEvent → Bool
  | .toolExec _ _ => true
  | _ => false

structure AgentState where
  files : FileMap
  script : List Reply
  msgs : List Msg
  events : List AgentEvent
  deriving DecidableEq, Repr

/-- Total number of pending tool invocations on a stack of loop frames. -/
def stackTools (k : List (List (String × ToolInput))) : Nat :=
  (k.map List.length).sum

/-- `processToolCalls`, defunctionalized: the head frame is the current
`for` loop over the reply's tool invocations, deeper frames are the
suspended outer loops of the recursion.  Per invocation the code appends
the `tool_call` message, runs the handler, and then

* on a throw (`catch`): appends an error `tool_result` and moves on to the
  remaining invocations of the same frame — no follow-up call;
* on success: appends the `tool_result`, issues a follow-up completion
  call, appends its text (if truthy) as an `assistant_message`, and
  recurses into the follow-up reply's tool invocations before the
  remaining invocations of the current frame. -/
def runStack : List (List (String × ToolInput)) → AgentState → AgentState
  | [], s => s
  | [] :: k, s => runStack k s
  | ((id, inp) :: rest) :: k, s =>
    match handleToolCall s.files inp with
    | .error e =>
      runStack (rest :: k)
        { s with
          msgs := s.msgs ++ [.toolCallMsg id inp, .toolResultMsg id (errResult e)]
          events := s.events ++ [.toolExec id false] }
    | .ok (r, files') =>
      match hs : s.script with
      | [] =>
        runStack (rest :: k)
          { s with
            files := files'
            msgs := s.msgs ++ [.toolCallMsg id inp, .toolResultMsg id r]
            events := s.events ++ [.toolExec id true, .llmCall] }
      | reply :: tl =>
        runStack (if reply.tools.isEmpty then rest :: k else reply.tools :: rest :: k)
          { files := files'
            script := tl
            msgs := s.msgs ++ [.toolCallMsg id inp, .toolResultMsg id r] ++
              (if reply.text = "" then [] else [.assistantMsg reply.text])
            events := s.events ++ [.toolExec id true, .llmCall] }
  termination_by k s => (s.script.length, stackTools k, k.length)
  decreasing_by
    · simp_wf
      simp [stackTools, Prod.lex_def]
      try omega
    · simp_wf
      simp [stackTools, Prod.lex_def]
      try omega
    · simp_wf
      simp [stackTools, Prod.lex_def]
      try omega
    · simp_wf
      simp [stackTools, Prod.lex_def, hs]
      try omega

/-- Entry point: processing the tool invocations of one completion reply. -/
def processToolCalls (tcs : List (String × ToolInput)) (s : AgentState) :
    AgentState :=
  runStack [tcs] s

/-- Number of completion calls in an event trace. -/
def llmCallCount (evs : List AgentEvent) : Nat :=
  (evs.filter isLlmCall).length

/-- Number of tool executions whose handler succeeded. -/
def okExecCount (evs : List AgentEvent) : Nat :=
  (evs.filter isOkExec).length

/-- Every successful tool execution is immediately followed by a
completion call. -/
def execsPaired : List AgentEvent → Bool
  | [] => true
  | .toolExec _ true :: l =>
    (match l with | .llmCall :: _ => true | _ => false) && execsPaired l
  | _ :: l => execsPaired l

/-- From the first completion call on, only completion calls appear (no
tool execution happens after a follow-up call has been issued). -/
def callsOnlyAfterFirstCall (evs : List AgentEvent) : Bool :=
  (evs.dropWhile (fun e => !isLlmCall e)).all isLlmCall

/-- The batch discipline asserted by the spec for the events of one
turn: all tool executions precede the (unique) follow-up completion
call. -/
def batchedFollowUpShape (evs : List AgentEvent) : Prop :=
  callsOnlyAfterFirstCall evs = true ∧ llmCallCount evs = 1

theorem execsPaired_execFalse (id : String) (l : List AgentEvent) :
    execsPaired (.toolExec id false :: l) = execsPaired l := by
  simp [execsPaired]

theorem execsPaired_execTrue_call (id : String) (l : List AgentEvent) :
    execsPaired (.toolExec id true :: .llmCall :: l) = execsPaired l := by
  simp [execsPaired]

/-- Shape of the events appended by the tool-call loop: every successful
execution is immediately followed by a completion call, and the number of
completion calls issued equals the number of successful executions. -/
theorem runStack_events_shape (k : List (List (String × ToolInput)))
    (s : AgentState) :
    ∃ d, (runStack k s).events = s.events ++ d ∧
      execsPaired d = true ∧ llmCallCount d = okExecCount d := by
  induction k, s using runStack.induct with
  | case1 s => exact ⟨[], by simp [runStack], rfl, rfl⟩
  | case2 k s ih =>
    obtain ⟨d, hd, hp, hc⟩ := ih
    exact ⟨d, by simpa [runStack] using hd, hp, hc⟩
  | case3 id inp rest k s e h ih =>
    obtain ⟨d, hd, hp, hc⟩ := ih
    refine ⟨.toolExec id false :: d, ?_, ?_, ?_⟩
    · simp only [runStack, h]
      simpa using hd
    · simpa [execsPaired_execFalse] using hp
    · simpa [llmCallCount, okExecCount, isLlmCall, isOkExec] using hc
  | case4 id inp rest k s r files' h hs ih =>
    obtain ⟨d, hd, hp, hc⟩ := ih
    refine ⟨.toolExec id true :: .llmCall :: d, ?_, ?_, ?_⟩
    · simp only [runStack, h]
      split
      · simpa [hs] using hd
      · simp_all
    · simpa [execsPaired_execTrue_call] using hp
    · simpa [llmCallCount, okExecCount, isLlmCall, isOkExec] using hc
  | case5 id inp rest k s r files' h reply tl hs ih =>
    obtain ⟨d, hd, hp, hc⟩ := ih
    refine ⟨.toolExec id true :: .llmCall :: d, ?_, ?_, ?_⟩
    · simp only [runStack, h]
      split
      · simp_all
      · rename_i reply2 tl2 heq
        rw [hs] at heq
        injection heq with h1 h2
        subst h1
        subst h2
        simpa using hd
    · simpa [execsPaired_execTrue_call] using hp
    · simpa [llmCallCount, okExecCount, isLlmCall, isOkExec] using hc

/-- The tool results recorded for a given tool-call id. -/
def resultsFor (msgs : List Msg) (id : String) : List ToolResult :=
  msgs.filterMap (fun m => match m with
    | .toolResultMsg i r => if i = id then some r else none
    | _ => none)

/-- **C1, counterexample.**  A completion reply with two tool invocations
(two `create_file`s, followed by two toolless replies) produces the event
trace exec,call,exec,call: the first follow-up completion call is issued
before the second tool invocation of the same reply has run, and two
follow-up calls are made rather than exactly one, so the full batch is not
executed before a single follow-up call. -/
theorem processToolCalls_not_batched_cex :
    (processToolCalls
        [("t1", .createFile "/a.js" "x"), ("t2", .createFile "/b.js" "y")]
        ⟨[], [{}, {}], [], []⟩).events
      = [.toolExec "t1" true, .llmCall, .toolExec "t2" true, .llmCall] ∧
    ¬ batchedFollowUpShape
        (processToolCalls
          [("t1", .createFile "/a.js" "x"), ("t2", .createFile "/b.js" "y")]
          ⟨[], [{}, {}], [], []⟩).events := by
  have h : (processToolCalls
      [("t1", .createFile "/a.js" "x"), ("t2", .createFile "/b.js" "y")]
      ⟨[], [{}, {}], [], []⟩).events
      = [.toolExec "t1" true, .llmCall, .toolExec "t2" true, .llmCall] := by
    simp [processToolCalls, runStack, handleToolCall]
  refine ⟨h, ?_⟩
  rw [h]
  simp only [batchedFollowUpShape]
  decide

/-- **C1, amended.**  During a turn a follow-up completion call is issued
after each individual successful tool invocation (immediately after its
execution, hence before the remaining invocations of the same reply run),
recursion happens on each follow-up reply's tool invocations, and a failed
invocation triggers no follow-up call: in every execution the events added
by the tool loop pair each successful execution with the completion call
right after it, and the number of follow-up calls equals the number of
successful tool executions. -/
theorem processToolCalls_followUp_per_success
    (tcs : List (String × ToolInput)) (s : AgentState) :
    ∃ d, (processToolCalls tcs s).events = s.events ++ d ∧
      execsPaired d = true ∧ llmCallCount d = okExecCount d :=
  runStack_events_shape [tcs] s

/-- **C2.**  A tool handler that throws is caught inside the turn: the
failure is recorded as a `tool_result` message with status `"error"` for
that call's id, the loop total-ly continues with the remaining tool
invocations of the turn (no exception escapes: the loop's value is the
processing of the rest from an otherwise unchanged state, with buffer and
script untouched). -/
theorem tool_error_caught_and_continues (id : String) (inp : ToolInput)
    (rest : List (String × ToolInput)) (s : AgentState) (e : String)
    (h : handleToolCall s.files inp = .error e) :
    (errResult e).status = "error" ∧
    processToolCalls ((id, inp) :: rest) s =
      processToolCalls rest
        { s with
          msgs := s.msgs ++ [.toolCallMsg id inp, .toolResultMsg id (errResult e)]
          events := s.events ++ [.toolExec id false] } := by
  refine ⟨rfl, ?_⟩
  simp only [processToolCalls, runStack, h]

theorem tool_error_caught_and_continues_witness :
    handleToolCall ([("/b.js", "1")] : FileMap) (.editFile "/missing.js" "y")
        = .error "File /missing.js does not exist" ∧
    ((errResult "File /missing.js does not exist").status = "error" ∧
      processToolCalls
          [("t1", .editFile "/missing.js" "y"), ("t2", .readFile "/b.js" 1 1 true)]
          ⟨[("/b.js", "1")], [{}], [], []⟩ =
        processToolCalls [("t2", .readFile "/b.js" 1 1 true)]
          ⟨[("/b.js", "1")], [{}],
            [.toolCallMsg "t1" (.editFile "/missing.js" "y"),
             .toolResultMsg "t1" (errResult "File /missing.js does not exist")],
            [.toolExec "t1" false]⟩) :=
  ⟨by rfl,
   tool_error_caught_and_continues "t1" (.editFile "/missing.js" "y")
     [("t2", .readFile "/b.js" 1 1 true)] ⟨[("/b.js", "1")], [{}], [], []⟩
     "File /missing.js does not exist" (by rfl)⟩

/-- **C3.**  `create_file("/a.js","x")` followed by `edit_file("/a.js","y")`
in the same turn: the edit's recorded tool result reports the old content
`"x"` written by the earlier create (and the new content `"y"`). -/
theorem edit_sees_same_turn_create :
    resultsFor
      (processToolCalls
        [("t1", .createFile "/a.js" "x"), ("t2", .editFile "/a.js" "y")]
        ⟨[], [{}, {}], [], []⟩).msgs "t2"
      = [{ status := "success"
           message := some "File /a.js updated successfully"
           oldContent := some "x"
           newContent := some "y" }] := by
  simp [processToolCalls, runStack, handleToolCall, getFile, setFile,
    resultsFor, errResult]
  decide

/-! ## Ledger and dispatcher properties -/

theorem getFile_setFile (fm : FileMap) (p c : String) :
    getFile (setFile fm p c) p = some c := by
  induction fm with
  | nil => simp [getFile, setFile]
  | cons e rest ih => by_cases h : e.1 = p <;> simp [getFile, setFile, h, ih]

/-- **C9.**  The ledger's marking is idempotent with respect to content:
recording a write whose content equals the previously recorded content for
the path leaves both the recorded contents and the dirty set unchanged,
and a path enters the dirty set only through a write whose content differs
from (or is absent in) its recorded content. -/
theorem markFileChanged_idempotent (led : Ledger) (p c : String) :
    (getFile led.prevCode p = some c → markFileChanged led p c = led) ∧
    (∀ q, q ∈ (markFileChanged led p c).dirty →
      q ∈ led.dirty ∨ (q = p ∧ getFile led.prevCode p ≠ some c)) := by
  constructor
  · intro h
    unfold markFileChanged
    split_ifs <;> simp_all
  · intro q hq
    unfold markFileChanged at hq
    split_ifs at hq with h1 h2
    · exact Or.inl hq
    · exact Or.inl hq
    · simp only [addDirty] at hq
      split_ifs at hq with h3
      · exact Or.inl hq
      · rcases List.mem_append.mp hq with h4 | h4
        · exact Or.inl h4
        · exact Or.inr ⟨List.mem_singleton.mp h4, h2⟩

theorem markFileChanged_idempotent_witness :
    getFile (Ledger.mk [("/a.js", "x")] []).prevCode "/a.js" = some "x" ∧
    markFileChanged (Ledger.mk [("/a.js", "x")] []) "/a.js" "x"
      = Ledger.mk [("/a.js", "x")] [] :=
  ⟨by rfl,
   (markFileChanged_idempotent (Ledger.mk [("/a.js", "x")] []) "/a.js" "x").1
     (by rfl)⟩

/-- **C4.**  Dispatching `edit_file` or `delete_file` on a path absent
from the buffer yields an error `ToolResult` and leaves the buffer and the
ledger (dirty set and recorded contents) exactly as before, while
`create_file` on an existing path succeeds and overwrites its content. -/
theorem missing_path_edit_delete_error (st : WorkState) (p c : String) :
    (getFile st.files p = none →
      (dispatchTracked st (.editFile p c)).1.status = "error" ∧
      (dispatchTracked st (.editFile p c)).2 = st ∧
      (dispatchTracked st (.deleteFile p)).1.status = "error" ∧
      (dispatchTracked st (.deleteFile p)).2 = st) ∧
    (∀ old, getFile st.files p = some old →
      (dispatchTracked st (.createFile p c)).1.status = "success" ∧
      getFile (dispatchTracked st (.createFile p c)).2.files p = some c) := by
  constructor
  · intro h
    refine ⟨?_, ?_, ?_, ?_⟩ <;>
      simp [dispatchTracked, handleToolCall, errResult, h]
  · intro old h
    constructor
    · simp [dispatchTracked, handleToolCall]
    · simp [dispatchTracked, handleToolCall, getFile_setFile]

theorem missing_path_edit_delete_error_witness :
    getFile (WorkState.mk [("/b.js", "1")] (Ledger.mk [] [])).files "/a.js"
        = none ∧
    getFile (WorkState.mk [("/b.js", "1")] (Ledger.mk [] [])).files "/b.js"
        = some "1" ∧
    ((dispatchTracked (WorkState.mk [("/b.js", "1")] (Ledger.mk [] []))
        (.editFile "/a.js" "y")).1.status = "error" ∧
      (dispatchTracked (WorkState.mk [("/b.js", "1")] (Ledger.mk [] []))
        (.editFile "/a.js" "y")).2
        = WorkState.mk [("/b.js", "1")] (Ledger.mk [] []) ∧
      (dispatchTracked (WorkState.mk [("/b.js", "1")] (Ledger.mk [] []))
        (.deleteFile "/a.js")).1.status = "error" ∧
      (dispatchTracked (WorkState.mk [("/b.js", "1")] (Ledger.mk [] []))
        (.deleteFile "/a.js")).2
        = WorkState.mk [("/b.js", "1")] (Ledger.mk [] [])) ∧
    ((dispatchTracked (WorkState.mk [("/b.js", "1")] (Ledger.mk [] []))
        (.createFile "/b.js" "2")).1.status = "success" ∧
      getFile (dispatchTracked (WorkState.mk [("/b.js", "1")] (Ledger.mk [] []))
        (.createFile "/b.js" "2")).2.files "/b.js" = some "2") :=
  ⟨by rfl, by rfl,
   (missing_path_edit_delete_error
      (WorkState.mk [("/b.js", "1")] (Ledger.mk [] [])) "/a.js" "y").1 (by rfl),
   (missing_path_edit_delete_error
      (WorkState.mk [("/b.js", "1")] (Ledger.mk [] [])) "/b.js" "2").2 "1" (by rfl)⟩

/-! ## `read_file` line ranges -/

/-- The spec's notion of a valid request: a 1-indexed inclusive range that
is neither inverted nor out of range for the file. -/
def specRangeOk (startLine endLine : Int) (totalLines : Nat) : Prop :=
  1 ≤ startLine ∧ startLine ≤ endLine ∧ endLine ≤ (totalLines : Int)

/-- The lines from `a` through `b`, 1-indexed inclusive. -/
def linesSlice (lines : List String) (a b : Nat) : List String :=
  (lines.drop (a - 1)).take (b + 1 - a)

/-- **C7, counterexample.**  `read_file` with range 1–10 on a three-line
file is out of range for the file, yet the dispatcher returns a success
result (with the range clamped to the file), not a `ValidationError`. -/
theorem read_file_out_of_range_cex :
    ¬ specRangeOk 1 10 (splitLines "a\nb\nc").length ∧
    handleToolCall [("/f.txt", "a\nb\nc")] (.readFile "/f.txt" 1 10 false)
      = .ok ({ status := "success"
               message := some "File /f.txt lines 1 to 10 read successfully"
               content := some "a\nb\nc"
               lineRangeStart := some 1
               lineRangeEnd := some 10
               totalLines := some 3 }, [("/f.txt", "a\nb\nc")]) := by
  constructor
  · simp only [specRangeOk]
    decide
  · rfl

/-- **C7, amended.**  For a file in the buffer, a ranged `read_file`
returns a `ValidationError` exactly when the range clamped to the file is
empty (`max 1 start > min total end`, which covers inverted ranges);
otherwise it succeeds and returns exactly the lines from `max 1 start`
through `min total end`, 1-indexed inclusive (out-of-file endpoints are
clamped rather than rejected). -/
theorem read_file_range_clamped (files : FileMap) (p content : String)
    (s e : Int) (h : getFile files p = some content) :
    (max 1 s > min ((splitLines content).length : Int) e →
      handleToolCall files (.readFile p s e false)
        = .error s!"Invalid line range: {s} to {e}") ∧
    (max 1 s ≤ min ((splitLines content).length : Int) e →
      handleToolCall files (.readFile p s e false)
        = .ok ({ status := "success"
                 message := some s!"File {p} lines {s} to {e} read successfully"
                 content := some (String.intercalate "\n"
                   (linesSlice (splitLines content) (max 1 s).toNat
                     (min ((splitLines content).length : Int) e).toNat))
                 lineRangeStart := some s
                 lineRangeEnd := some e
                 totalLines := some (splitLines content).length }, files)) := by
  constructor
  · intro hgt
    simp only [handleToolCall, h, Bool.false_eq_true, if_false]
    split
    · rfl
    · omega
  · intro hle
    simp only [handleToolCall, h, Bool.false_eq_true, if_false]
    split
    · omega
    · have e1 : (max 0 (s - 1)).toNat = (max 1 s).toNat - 1 := by omega
      have e2 : (min (((splitLines content).length : Int) - 1) (e - 1)).toNat + 1
            - ((max 1 s).toNat - 1)
          = (min ((splitLines content).length : Int) e).toNat + 1
            - (max 1 s).toNat := by omega
      simp [linesSlice, e1, e2]

theorem read_file_range_clamped_witness :
    getFile [("/f.txt", "a\nb\nc")] "/f.txt" = some "a\nb\nc" ∧
    max 1 (2 : Int) ≤ min ((splitLines "a\nb\nc").length : Int) 3 ∧
    handleToolCall [("/f.txt", "a\nb\nc")] (.readFile "/f.txt" 2 3 false)
      = .ok ({ status := "success"
               message := some "File /f.txt lines 2 to 3 read successfully"
               content := some (String.intercalate "\n"
                 (linesSlice (splitLines "a\nb\nc") 2 3))
               lineRangeStart := some 2
               lineRangeEnd := some 3
               totalLines := some 3 }, [("/f.txt", "a\nb\nc")]) :=
  ⟨by rfl, by decide,
   (read_file_range_clamped [("/f.txt", "a\nb\nc")] "/f.txt" "a\nb\nc" 2 3
     (by rfl)).2 (by decide)⟩

/-! ## `codebase_search` -/

/-- The per-file hits of a dispatched search. -/
def resultHits (r : Except String (ToolResult × FileMap)) : List SearchHit :=
  match r with
  | .ok (res, _) => res.hits.getD []
  | .error _ => []

/-- The files included in a dispatched search's results. -/
def resultFiles (r : Except String (ToolResult × FileMap)) : List String :=
  (resultHits r).map (·.file)

theorem resultHits_codebaseSearch (files : FileMap) (query : String) :
    resultHits (handleToolCall files (.codebaseSearch query []))
      = (fileKeys files).filterMap (codebaseFileHit files (jsToLower query)) := by
  simp [resultHits, handleToolCall]

theorem codebaseFileHit_eq_some (files : FileMap) (ql p : String)
    (hit : SearchHit) :
    codebaseFileHit files ql p = some hit ↔
      (jsIncludes (jsToLower ((getFile files p).getD "")) ql = true ∧
       codebaseSnippets ql (splitLines ((getFile files p).getD "")) ≠ [] ∧
       hit = { file := p
               matchCount :=
                 (codebaseSnippets ql (splitLines ((getFile files p).getD ""))).length
               snippets :=
                 codebaseSnippets ql (splitLines ((getFile files p).getD "")) }) := by
  simp only [codebaseFileHit]
  split_ifs with h1 h2
  · rw [List.isEmpty_iff] at h2
    simp [h1, h2]
  · rw [List.isEmpty_iff] at h2
    simp [h1, h2, eq_comm]
  · simp [h1]

theorem codebaseSnippets_mem (ql : String) (lines : List String)
    (sn : Snippet) (h : sn ∈ codebaseSnippets ql lines) :
    ∃ i x, lines.get? i = some x ∧ jsIncludes (jsToLower x) ql = true ∧
      sn = { lineNumber := i + 1
             context := String.intercalate "\n"
               ((lines.drop (max 0 (i - 2))).take
                 (min (lines.length - 1) (i + 2) + 1 - max 0 (i - 2)))
             rangeStart := max 0 (i - 2) + 1
             rangeEnd := min (lines.length - 1) (i + 2) + 1 } := by
  unfold codebaseSnippets at h
  rw [List.mem_filterMap] at h
  obtain ⟨⟨i, x⟩, hmem, hf⟩ := h
  rw [List.mem_enum_iff_get?] at hmem
  split_ifs at hf with hm
  exact ⟨i, x, hmem, hm, (Option.some.inj hf).symm⟩

theorem codebaseSnippets_ne_nil_iff (ql : String) (lines : List String) :
    codebaseSnippets ql lines ≠ [] ↔
      ∃ line ∈ lines, jsIncludes (jsToLower line) ql = true := by
  unfold codebaseSnippets
  rw [ne_eq, List.filterMap_eq_nil]
  push_neg
  constructor
  · rintro ⟨⟨i, x⟩, hmem, hne⟩
    rw [List.mem_enum_iff_get?] at hmem
    by_cases hm : jsIncludes (jsToLower x) ql = true
    · exact ⟨x, List.mem_iff_get?.mpr ⟨i, hmem⟩, hm⟩
    · simp [hm] at hne
  · rintro ⟨line, hline, hm⟩
    obtain ⟨i, hi⟩ := List.mem_iff_get?.mp hline
    exact ⟨(i, line), List.mem_enum_iff_get?.mpr hi, by simp [hm]⟩

/-- The inclusion condition asserted by the claim: a file is in the
results exactly when its lowercased content contains the lowercased
query. -/
def contentMatchClaim (files : FileMap) (query : String) : Prop :=
  ∀ p ∈ fileKeys files,
    (p ∈ resultFiles (handleToolCall files (.codebaseSearch query [])) ↔
      jsIncludes (jsToLower ((getFile files p).getD "")) (jsToLower query) = true)

/-- **C10, counterexample.**  For the query `"a\nb"` over a single file
with content `"a\nb"`, the lowercased content does contain the lowercased
query, yet `codebase_search` returns no results (no single line contains
the query), so content containment does not characterize inclusion. -/
theorem codebase_search_content_match_cex :
    jsIncludes (jsToLower "a\nb") (jsToLower "a\nb") = true ∧
    resultFiles (handleToolCall [("/f.txt", "a\nb")]
      (.codebaseSearch "a\nb" [])) = [] ∧
    ¬ contentMatchClaim [("/f.txt", "a\nb")] "a\nb" := by
  refine ⟨by rfl, by rfl, ?_⟩
  simp only [contentMatchClaim]
  decide

/-- **C10, amended.**  `codebase_search` (without a directory filter)
matches case-insensitively: a file is included in the results exactly when
it is in the workspace, its lowercased content contains the lowercased
query, and some single line's lowercased text contains the lowercased
query (a query spanning a line break is never reported); and every
reported snippet's context window spans from two lines above through two
lines below the matching line, clamped at the file boundaries, with
1-indexed line numbers. -/
theorem codebase_search_line_match (files : FileMap) (query : String) :
    (∀ p, p ∈ resultFiles (handleToolCall files (.codebaseSearch query [])) ↔
      (p ∈ fileKeys files ∧
       jsIncludes (jsToLower ((getFile files p).getD "")) (jsToLower query) = true ∧
       ∃ line ∈ splitLines ((getFile files p).getD ""),
         jsIncludes (jsToLower line) (jsToLower query) = true)) ∧
    (∀ hit ∈ resultHits (handleToolCall files (.codebaseSearch query [])),
      ∀ sn ∈ hit.snippets,
        1 ≤ sn.lineNumber ∧
        sn.lineNumber ≤ (splitLines ((getFile files hit.file).getD "")).length ∧
        sn.rangeStart = max 1 (sn.lineNumber - 2) ∧
        sn.rangeEnd = min (splitLines ((getFile files hit.file).getD "")).length
          (sn.lineNumber + 2) ∧
        sn.context = String.intercalate "\n"
          (linesSlice (splitLines ((getFile files hit.file).getD ""))
            sn.rangeStart sn.rangeEnd) ∧
        ∃ line,
          (splitLines ((getFile files hit.file).getD "")).get? (sn.lineNumber - 1)
              = some line ∧
          jsIncludes (jsToLower line) (jsToLower query) = true) := by
  constructor
  · intro p
    rw [resultFiles, resultHits_codebaseSearch, List.mem_map]
    constructor
    · rintro ⟨hit, hmem, rfl⟩
      rw [List.mem_filterMap] at hmem
      obtain ⟨q, hq, hf⟩ := hmem
      rw [codebaseFileHit_eq_some] at hf
      obtain ⟨hincl, hne, rfl⟩ := hf
      exact ⟨hq, hincl, (codebaseSnippets_ne_nil_iff _ _).mp hne⟩
    · rintro ⟨hp, hincl, hline⟩
      refine ⟨{ file := p
                matchCount := (codebaseSnippets (jsToLower query)
                  (splitLines ((getFile files p).getD ""))).length
                snippets := codebaseSnippets (jsToLower query)
                  (splitLines ((getFile files p).getD "")) }, ?_, rfl⟩
      rw [List.mem_filterMap]
      exact ⟨p, hp, (codebaseFileHit_eq_some _ _ _ _).mpr
        ⟨hincl, (codebaseSnippets_ne_nil_iff _ _).mpr hline, rfl⟩⟩
  · intro hit hmem sn hsn
    rw [resultHits_codebaseSearch, List.mem_filterMap] at hmem
    obtain ⟨q, hq, hf⟩ := hmem
    rw [codebaseFileHit_eq_some] at hf
    obtain ⟨hincl, hne, rfl⟩ := hf
    obtain ⟨i, x, hget, hm, rfl⟩ := codebaseSnippets_mem _ _ _ hsn
    obtain ⟨hlt, -⟩ := List.get?_eq_some.mp hget
    refine ⟨by dsimp only; omega, by dsimp only; omega, by dsimp only; omega,
      by dsimp only; omega, ?_, ?_⟩
    · dsimp only
      have a1 : max 0 (i - 2) + 1 - 1 = max 0 (i - 2) := by omega
      have a2 : min ((splitLines ((getFile files q).getD "")).length - 1) (i + 2)
            + 1 + 1 - (max 0 (i - 2) + 1)
          = min ((splitLines ((getFile files q).getD "")).length - 1) (i + 2)
            + 1 - max 0 (i - 2) := by omega
      simp [linesSlice, a1, a2]
    · dsimp only
      rw [Nat.add_sub_cancel]
      exact ⟨x, hget, hm⟩

theorem codebase_search_line_match_witness :
    Snippet.mk 2 "x\ny" 1 2
        ∈ (SearchHit.mk "/f.txt" 1 [Snippet.mk 2 "x\ny" 1 2]).snippets ∧
    SearchHit.mk "/f.txt" 1 [Snippet.mk 2 "x\ny" 1 2]
        ∈ resultHits (handleToolCall [("/f.txt", "x\ny")]
            (.codebaseSearch "y" [])) ∧
    (1 ≤ (2 : Nat) ∧ 2 ≤ (splitLines "x\ny").length ∧
      (1 : Nat) = max 1 (2 - 2) ∧
      (2 : Nat) = min (splitLines "x\ny").length (2 + 2) ∧
      "x\ny" = String.intercalate "\n" (linesSlice (splitLines "x\ny") 1 2) ∧
      ∃ line, (splitLines "x\ny").get? (2 - 1) = some line ∧
        jsIncludes (jsToLower line) (jsToLower "y") = true) :=
  ⟨by decide, by decide,
   (codebase_search_line_match [("/f.txt", "x\ny")] "y").2
     (SearchHit.mk "/f.txt" 1 [Snippet.mk 2 "x\ny" 1 2]) (by decide)
     (Snippet.mk 2 "x\ny" 1 2) (by decide)⟩

/-! ## Git subsystem (`useGit`: `synchronizeFiles`, `checkFileModified`,
`generateDiff`)

The persistent store is a pair of file maps: the HEAD blobs and the
working directory, both keyed by repo-relative paths.  `git.statusMatrix`
is modelled as an input constrained by `MatrixOK`: its presence columns
are accurate but its content-comparison codes are a mere hint (real git
status uses stat heuristics), which is exactly why the diff engine
re-verifies contents. -/

/-- The repo-relative path a sandpack path is stored under:
sync writes `repoPath + (path.startsWith('/') ? path : '/' + path)` and
the git primitives read `repoPath + '/' + filepath`. -/
def repoRel (p : String) : String :=
  if jsStartsWith p "/" then String.mk (p.data.drop 1) else p

/-- One dirty path's step of `synchronizeFiles`: skip falsy paths or
contents and the `node_modules` / `.git/` namespaces, else write the
content into the working directory and count it. -/
def syncStep (sandpackFiles : FileMap) (acc : FileMap × Nat) (path : String) :
    FileMap × Nat :=
  if path = "" then acc
  else
    match getFile sandpackFiles path with
    | none => acc
    | some content =>
      if content = "" then acc
      else
        let normalized := if jsStartsWith path "/" then path else "/" ++ path
        if jsIncludes normalized "node_modules" || jsIncludes normalized ".git/"
        then acc
        else (setFile acc.1 (repoRel path) content, acc.2 + 1)

/-- `synchronizeFiles`: write each dirty path's buffer content into the
working directory.  Returns the updated working directory and the number
of files written; the JS function's result is `syncedFilesCount > 0`. -/
def syncFiles (sandpackFiles : FileMap) (dirty : List String)
    (workdir : FileMap) : FileMap × Nat :=
  dirty.foldl (syncStep sandpackFiles) (workdir, 0)

/-- One row of `git.statusMatrix`: `[filepath, head, workdir, stage]`. -/
structure StatusRow where
  path : String
  head : Nat
  workdir : Nat
  stage : Nat
  deriving DecidableEq, Repr

/-- Faithfulness of a status matrix to the store: the presence columns
are accurate (`head = 0` iff no HEAD blob, `workdir = 0` iff the path is
absent from the working directory) and every working-directory file has a
row; the modified-vs-identical codes and the stage column are
unconstrained. -/
def MatrixOK (headFiles workdir : FileMap) (m : List StatusRow) : Prop :=
  (∀ r ∈ m, ((r.head = 0) ↔ getFile headFiles r.path = none) ∧
            ((r.workdir = 0) ↔ getFile workdir r.path = none)) ∧
  (∀ e ∈ workdir, ∃ r ∈ m, r.path = e.1)

/-- `checkFileModified`: direct content comparison of the working copy
against the HEAD blob.  An unreadable working file is modified exactly
when it exists in HEAD (a deletion); a missing HEAD blob makes a readable
file new, hence modified. -/
def checkFileModified (headFiles workdir : FileMap) (p : String) : Bool :=
  match getFile workdir p with
  | none => (getFile headFiles p).isSome
  | some cur =>
    match getFile headFiles p with
    | none => true
    | some orig => cur != orig

/-- One index step of the positional line comparison of `generateDiff`:
out-of-range lines read as `''`, a differing index emits the removal (when
the old file has the line) then the addition (when the new file has it),
an equal index emits one context line. -/
def diffLineStep (oldLines newLines : List String) (i : Nat) : List String :=
  let oldLine := oldLines.getD i ""
  let newLine := newLines.getD i ""
  if oldLine ≠ newLine then
    (if i < oldLines.length then ["-" ++ oldLine] else []) ++
    (if i < newLines.length then ["+" ++ newLine] else [])
  else [" " ++ oldLine]

/-- The body of one file's diff block: every line an addition for a new
file, every line a deletion for a deleted file, otherwise the positional
line-by-line comparison up to the longer file's line count. -/
def diffBody (isNew isDeleted : Bool) (oldContent newContent : String) :
    List String :=
  let oldLines := splitLines oldContent
  let newLines := splitLines newContent
  if isNew then newLines.map (fun l => "+" ++ l)
  else if isDeleted then oldLines.map (fun l => "-" ++ l)
  else (List.range (max oldLines.length newLines.length)).flatMap
    (diffLineStep oldLines newLines)

/-- A per-file block of `generateDiff`'s output. -/
structure DiffEntry where
  path : String
  isNew : Bool
  isDeleted : Bool
  body : List String
  deriving DecidableEq, Repr

/-- The block `generateDiff` emits for one status row that survived the
re-verification. -/
def diffEntryFor (headFiles workdir : FileMap) (r : StatusRow) : DiffEntry :=
  let oldContent := if r.head ≠ 0 then (getFile headFiles r.path).getD "" else ""
  let newContent := if r.workdir ≠ 0 then (getFile workdir r.path).getD "" else ""
  { path := r.path
    isNew := r.head == 0
    isDeleted := r.workdir == 0
    body := diffBody (r.head == 0) (r.workdir == 0) oldContent newContent }

/-- `generateDiff`'s three shapes of output: the "no changes" sentinel,
the manual fallback taken when the status matrix is empty but dirty paths
exist, and the per-file diff blocks. -/
inductive DiffOut where
  | noChanges (msg : String)
  | manual (entries : List (String × String))
  | diff (entries : List DiffEntry)
  deriving DecidableEq, Repr

/-- `generateDiff`: synchronize first; bail out with the sentinel when
nothing was synchronized; fall back to a manual listing when the status
matrix is empty yet dirty paths exist and are readable; otherwise keep
the rows the matrix flags as disagreeing *and* whose content re-verifies
as modified, and emit a block per kept row. -/
def generateDiff (sandpackFiles : FileMap) (dirty : List String)
    (headFiles workdir : FileMap) (matrix : List StatusRow) :
    DiffOut × FileMap :=
  let sync := syncFiles sandpackFiles dirty workdir
  let wd := sync.1
  if sync.2 = 0 then
    (.noChanges "No changes detected in the repository. Make sure files are properly synced.", wd)
  else
    let manualEntries := dirty.filterMap
      (fun p => (getFile wd (repoRel p)).map (fun c => (p, c)))
    if matrix.isEmpty && !dirty.isEmpty && !manualEntries.isEmpty then
      (.manual manualEntries, wd)
    else
      let included := matrix.filter (fun r =>
        !(r.head == r.workdir && r.head == r.stage) &&
          checkFileModified headFiles wd r.path)
      if included.isEmpty then
        (.noChanges "No changes detected in the repository.", wd)
      else
        (.diff (included.map (diffEntryFor headFiles wd)), wd)

/-- The paths reported changed by a diff output. -/
def diffPaths (d : DiffOut) : List String :=
  match d with
  | .noChanges _ => []
  | .manual es => es.map (·.1)
  | .diff es => es.map (·.path)

theorem setFile_ne_nil (fm : FileMap) (p c : String) : setFile fm p c ≠ [] := by
  cases fm with
  | nil => simp [setFile]
  | cons e rest =>
    unfold setFile
    split_ifs <;> simp

theorem syncStep_nil (sandpackFiles : FileMap) (acc : FileMap × Nat)
    (path : String) (h : (syncStep sandpackFiles acc path).1 = []) :
    syncStep sandpackFiles acc path = acc := by
  unfold syncStep at h ⊢
  split_ifs at h ⊢ with h1
  · rfl
  all_goals
    cases hg : getFile sandpackFiles path with
    | none => simp [hg]
    | some content =>
      simp only [hg] at h ⊢
      split_ifs at h ⊢
      · rfl
      · rfl
      · exact absurd h (setFile_ne_nil _ _ _)

theorem syncFold_nil (sandpackFiles : FileMap) (dirty : List String) :
    ∀ acc : FileMap × Nat,
      (dirty.foldl (syncStep sandpackFiles) acc).1 = [] →
      dirty.foldl (syncStep sandpackFiles) acc = acc := by
  induction dirty with
  | nil => intro acc _; rfl
  | cons d rest ih =>
    intro acc h
    rw [List.foldl_cons] at h ⊢
    have h2 := ih (syncStep sandpackFiles acc d) h
    rw [h2] at h ⊢
    exact syncStep_nil _ _ _ h

/-- An empty synchronized working directory means nothing was written. -/
theorem syncFiles_nil_count (sandpackFiles : FileMap) (dirty : List String)
    (workdir : FileMap) (h : (syncFiles sandpackFiles dirty workdir).1 = []) :
    (syncFiles sandpackFiles dirty workdir).2 = 0 := by
  unfold syncFiles at h ⊢
  rw [syncFold_nil sandpackFiles dirty (workdir, 0) h]

/-- The content re-verification is exactly byte-for-byte difference
between working copy and HEAD blob, with creation and deletion counting
as different. -/
theorem checkFileModified_iff (headFiles workdir : FileMap) (p : String) :
    checkFileModified headFiles workdir p = true ↔
      getFile workdir p ≠ getFile headFiles p := by
  unfold checkFileModified
  cases hw : getFile workdir p <;> cases hh : getFile headFiles p <;>
    simp [hw, hh]

/-- **C5.**  For every workspace state whose status matrix is faithful in
its presence columns (`MatrixOK` — the content codes remain arbitrary), a
path appears in `generateDiff`'s output only if its post-sync working
content differs byte-for-byte from the HEAD blob (new and deleted files
counting as different): a status-matrix disagreement alone is never
sufficient for inclusion, and the manual fallback that would skip the
verification is unreachable under a faithful matrix. -/
theorem generateDiff_content_verified (sandpackFiles : FileMap)
    (dirty : List String) (headFiles workdir : FileMap)
    (matrix : List StatusRow)
    (hm : MatrixOK headFiles (syncFiles sandpackFiles dirty workdir).1 matrix)
    (p : String)
    (hp : p ∈ diffPaths
      (generateDiff sandpackFiles dirty headFiles workdir matrix).1) :
    getFile (generateDiff sandpackFiles dirty headFiles workdir matrix).2 p
      ≠ getFile headFiles p := by
  unfold generateDiff at hp ⊢
  by_cases h0 : (syncFiles sandpackFiles dirty workdir).2 = 0
  · simp [h0, diffPaths] at hp
  · have hmat : matrix ≠ [] := by
      intro hE
      apply h0
      apply syncFiles_nil_count
      cases hwdl : (syncFiles sandpackFiles dirty workdir).1 with
      | nil => rfl
      | cons e rest =>
        obtain ⟨r, hr, -⟩ := hm.2 e (hwdl ▸ List.mem_cons_self e rest)
        rw [hE] at hr
        exact absurd hr (List.not_mem_nil r)
    simp only [if_neg h0] at hp ⊢
    have hfb : (matrix.isEmpty && !dirty.isEmpty &&
        !(dirty.filterMap (fun p =>
          (getFile (syncFiles sandpackFiles dirty workdir).1 (repoRel p)).map
            (fun c => (p, c)))).isEmpty) = false := by
      have : matrix.isEmpty = false := by
        simpa [List.isEmpty_iff] using hmat
      simp [this]
    simp only [hfb, Bool.false_eq_true, if_false] at hp ⊢
    simp only [apply_ite Prod.snd] at hp ⊢
    simp only [ite_self] at hp ⊢
    split at hp
    · simp [diffPaths] at hp
    · simp only [diffPaths, List.mem_map] at hp
      obtain ⟨entry, hentry, rfl⟩ := hp
      obtain ⟨r, hr, rfl⟩ := hentry
      rw [List.mem_filter] at hr
      have hchk : checkFileModified headFiles
          (syncFiles sandpackFiles dirty workdir).1 r.path = true := by
        have := hr.2
        simp only [Bool.and_eq_true] at this
        exact this.2
      exact (checkFileModified_iff _ _ _).mp hchk

theorem generateDiff_content_verified_witness :
    MatrixOK [("a.js", "old")]
      (syncFiles [("/a.js", "xx")] ["/a.js"] [("a.js", "old")]).1
      [StatusRow.mk "a.js" 1 2 2] ∧
    "a.js" ∈ diffPaths
      (generateDiff [("/a.js", "xx")] ["/a.js"] [("a.js", "old")]
        [("a.js", "old")] [StatusRow.mk "a.js" 1 2 2]).1 ∧
    getFile (generateDiff [("/a.js", "xx")] ["/a.js"] [("a.js", "old")]
        [("a.js", "old")] [StatusRow.mk "a.js" 1 2 2]).2 "a.js"
      ≠ getFile [("a.js", "old")] "a.js" :=
  ⟨by simp only [MatrixOK]; decide, by decide,
   generateDiff_content_verified [("/a.js", "xx")] ["/a.js"] [("a.js", "old")]
     [("a.js", "old")] [StatusRow.mk "a.js" 1 2 2]
     (by simp only [MatrixOK]; decide) "a.js" (by decide)⟩

/-- **C6.**  For a file present in both head and working copy the diff
body is a positional line-by-line comparison: at every index within both
files, differing lines emit exactly one removal followed by one addition
and equal lines emit one context line; editing `/a.js` from `"1\n2\n"` to
`"1\n3\n"` yields exactly one removed line `2`, exactly one added line
`3`, and the unchanged context line `1` (plus the context line for the
empty segment after the final newline, equal in both files). -/
theorem diff_positional (oldContent newContent : String) :
    (∀ i, i < (splitLines oldContent).length →
        i < (splitLines newContent).length →
        diffLineStep (splitLines oldContent) (splitLines newContent) i =
          (if (splitLines oldContent).getD i "" ≠ (splitLines newContent).getD i ""
           then ["-" ++ (splitLines oldContent).getD i "",
                 "+" ++ (splitLines newContent).getD i ""]
           else [" " ++ (splitLines oldContent).getD i ""])) ∧
    (∀ headFiles workdir : FileMap, ∀ r : StatusRow,
        r.head ≠ 0 → r.workdir ≠ 0 →
        (diffEntryFor headFiles workdir r).body =
          diffBody false false ((getFile headFiles r.path).getD "")
            ((getFile workdir r.path).getD "")) ∧
    diffBody false false "1\n2\n" "1\n3\n" = [" 1", "-2", "+3", " "] ∧
    (diffBody false false "1\n2\n" "1\n3\n").filter (fun l => jsStartsWith l "-")
        = ["-2"] ∧
    (diffBody false false "1\n2\n" "1\n3\n").filter (fun l => jsStartsWith l "+")
        = ["+3"] ∧
    " 1" ∈ diffBody false false "1\n2\n" "1\n3\n" := by
  refine ⟨?_, ?_, by decide, by decide, by decide, by decide⟩
  · intro i h1 h2
    simp [diffLineStep, h1, h2]
  · intro headFiles workdir r h1 h2
    have hb1 : (r.head == 0) = false := beq_eq_false_iff_ne.mpr h1
    have hb2 : (r.workdir == 0) = false := beq_eq_false_iff_ne.mpr h2
    simp [diffEntryFor, hb1, hb2, h1, h2]

theorem diff_positional_witness :
    (1 < (splitLines "1\n2\n").length ∧ 1 < (splitLines "1\n3\n").length ∧
      diffLineStep (splitLines "1\n2\n") (splitLines "1\n3\n") 1
        = ["-2", "+3"]) ∧
    ((StatusRow.mk "a.js" 1 2 0).head ≠ 0 ∧
      (StatusRow.mk "a.js" 1 2 0).workdir ≠ 0 ∧
      (diffEntryFor [("a.js", "o")] [("a.js", "n")]
          (StatusRow.mk "a.js" 1 2 0)).body
        = diffBody false false "o" "n") :=
  ⟨⟨by decide, by decide,
    (diff_positional "1\n2\n" "1\n3\n").1 1 (by decide) (by decide)⟩,
   ⟨by decide, by decide,
    (diff_positional "1\n2\n" "1\n3\n").2.1 [("a.js", "o")] [("a.js", "n")]
      (StatusRow.mk "a.js" 1 2 0) (by decide) (by decide)⟩⟩

/-! ## Turn queue and single-active-turn discipline
(`sendMessage` / `processUserMessage` and the queue-draining effect)

Per the concurrency model the only suspension points are completion
calls, so the machine consumes a trace of external actions: user
submissions and completion-reply arrivals.  `sendMessage` enqueues a
submission while a turn is in progress (`conversationInProgress`) and
starts a turn otherwise; a turn appends its user message and awaits the
reply; tool processing follows `processToolCalls` with its frame stack,
suspending again after each successful tool execution's follow-up call;
when the frames are exhausted the turn settles and the next queued
submission starts (`messageQueue.shift()`, FIFO).  Each log entry is
tagged with the turn that appended it. -/

inductive TurnAction where
  | submit (text : String)
  | reply (r : Reply)
  deriving DecidableEq, Repr

inductive TurnControl where
  | idle
  | awaitReply (frames : List (List (String × ToolInput)))
  deriving DecidableEq, Repr

structure SysState where
  control : TurnControl
  queue : List String
  files : FileMap
  log : List (Nat × Msg)
  turn : Nat
  deriving DecidableEq, Repr

/-- End of `processUserMessage`'s `finally`: the turn settles; if a
submission is queued, shift it and start its turn (append its user
message, call the completion client and await the reply), else go idle. -/
def finishTurn (s : SysState) : SysState :=
  match s.queue with
  | [] => { s with control := .idle }
  | t :: q =>
    { s with control := .awaitReply []
             queue := q
             turn := s.turn + 1
             log := s.log ++ [(s.turn + 1, .userMsg t)] }

/-- The tool loop between two suspension points: pop exhausted frames,
execute tool invocations; a failure appends its error `tool_result` and
continues synchronously, a success appends its `tool_result` and suspends
awaiting the follow-up reply; an empty stack settles the turn. -/
def driveFrames : List (List (String × ToolInput)) → SysState → SysState
  | [], s => finishTurn s
  | [] :: k, s => driveFrames k s
  | ((id, inp) :: rest) :: k, s =>
    match handleToolCall s.files inp with
    | .error e =>
      driveFrames (rest :: k)
        { s with log := s.log ++ [(s.turn, .toolCallMsg id inp),
                                  (s.turn, .toolResultMsg id (errResult e))] }
    | .ok (r, files') =>
      { s with files := files'
               log := s.log ++ [(s.turn, .toolCallMsg id inp),
                                (s.turn, .toolResultMsg id r)]
               control := .awaitReply (rest :: k) }
  termination_by k _ => (stackTools k, k.length)
  decreasing_by
    all_goals simp_wf
    all_goals simp [stackTools, Prod.lex_def]

/-- One external action: `sendMessage` enqueues while a turn is active
and starts a turn otherwise; an arriving completion reply appends its
text (if truthy) and drives the pending frames with its tool
invocations. -/
def turnStep (s : SysState) (a : TurnAction) : SysState :=
  match a with
  | .submit t =>
    match s.control with
    | .idle =>
      { s with control := .awaitReply []
               turn := s.turn + 1
               log := s.log ++ [(s.turn + 1, .userMsg t)] }
    | .awaitReply _ => { s with queue := s.queue ++ [t] }
  | .reply r =>
    match s.control with
    | .idle => s
    | .awaitReply k =>
      driveFrames (r.tools :: k)
        { s with log := s.log ++
            (if r.text = "" then [] else [(s.turn, .assistantMsg r.text)]) }

def runActions (acts : List TurnAction) (s : SysState) : SysState :=
  acts.foldl turnStep s

def initSys (files : FileMap) : SysState :=
  { control := .idle, queue := [], files := files, log := [], turn := 0 }

/-- The user-message texts of a tagged log, in order. -/
def userTexts (l : List (Nat × Msg)) : List String :=
  l.filterMap (fun m => match m.2 with | .userMsg t => some t | _ => none)

/-- The submissions contained in an action trace, in order. -/
def submittedTexts (acts : List TurnAction) : List String :=
  acts.filterMap (fun a => match a with | .submit t => some t | _ => none)

/-- The machine invariant: log tags are non-decreasing, every tag is at
most the current turn id, and the machine is never idle with a queued
submission. -/
def SysInv (s : SysState) : Prop :=
  s.log.Pairwise (fun a b => a.1 ≤ b.1) ∧
  (∀ m ∈ s.log, m.1 ≤ s.turn) ∧
  (s.control = .idle → s.queue = [])

theorem userTexts_append (l1 l2 : List (Nat × Msg)) :
    userTexts (l1 ++ l2) = userTexts l1 ++ userTexts l2 := by
  simp [userTexts]

/-- What one tool-loop segment does to the observable state: the turn id
is monotone, the appended log entries are sorted with tags between the
entry and exit turn ids, the sequence "user messages then queued texts"
is preserved, and a settled (idle) machine has an empty queue. -/
theorem driveFrames_spec (k : List (List (String × ToolInput)))
    (s : SysState) :
    s.turn ≤ (driveFrames k s).turn ∧
    (∃ d, (driveFrames k s).log = s.log ++ d ∧
      d.Pairwise (fun a b => a.1 ≤ b.1) ∧
      (∀ m ∈ d, s.turn ≤ m.1 ∧ m.1 ≤ (driveFrames k s).turn)) ∧
    userTexts (driveFrames k s).log ++ (driveFrames k s).queue
      = userTexts s.log ++ s.queue ∧
    ((driveFrames k s).control = .idle → (driveFrames k s).queue = []) := by
  induction k, s using driveFrames.induct with
  | case1 s =>
    simp only [driveFrames]
    unfold finishTurn
    cases hq : s.queue with
    | nil =>
      refine ⟨le_refl _, ⟨[], by simp, by simp, by simp⟩, by simp [hq], ?_⟩
      intro _
      simp [hq]
    | cons t q =>
      refine ⟨by simp, ⟨[(s.turn + 1, .userMsg t)], by simp, by simp, ?_⟩,
        ?_, by simp⟩
      · intro m hm
        simp only [List.mem_singleton] at hm
        subst hm
        simp
      · simp [userTexts_append, userTexts, hq]
  | case2 k s ih =>
    simpa only [driveFrames] using ih
  | case3 id inp rest k s e h ih =>
    obtain ⟨iht, ⟨d, hd, hdp, hdb⟩, ihu, ihq⟩ := ih
    simp only [driveFrames, h]
    refine ⟨le_trans (by simp) iht,
      ⟨(s.turn, .toolCallMsg id inp) :: (s.turn, .toolResultMsg id (errResult e)) :: d,
        ?_, ?_, ?_⟩, ?_, ihq⟩
    · rw [hd]
      simp
    · rw [List.pairwise_cons, List.pairwise_cons]
      refine ⟨?_, ?_, hdp⟩
      · intro m hm
        rcases List.mem_cons.mp hm with h1 | h1
        · subst h1; simp
        · exact (hdb m h1).1
      · intro m hm
        exact (hdb m hm).1
    · intro m hm
      rcases List.mem_cons.mp hm with h1 | h1
      · subst h1
        exact ⟨le_refl _, le_trans (by simp) iht⟩
      rcases List.mem_cons.mp h1 with h2 | h2
      · subst h2
        exact ⟨le_refl _, le_trans (by simp) iht⟩
      · exact hdb m h2
    · rw [ihu]
      simp [userTexts_append, userTexts]
  | case4 id inp rest k s r files' h =>
    simp only [driveFrames, h]
    refine ⟨le_refl _,
      ⟨[(s.turn, .toolCallMsg id inp), (s.turn, .toolResultMsg id r)],
        by simp, by simp, ?_⟩, ?_, by simp⟩
    · intro m hm
      rcases List.mem_cons.mp hm with h1 | h1
      · subst h1; simp
      rcases List.mem_cons.mp h1 with h2 | h2
      · subst h2; simp
      · simp at h2
    · simp [userTexts_append, userTexts]

/-- One external action preserves the machine invariant and appends
exactly its submission (if any) to the sequence "user messages then
queued texts". -/
theorem turnStep_spec (s : SysState) (a : TurnAction) (hInv : SysInv s) :
    SysInv (turnStep s a) ∧
    userTexts (turnStep s a).log ++ (turnStep s a).queue
      = (userTexts s.log ++ s.queue) ++ submittedTexts [a] := by
  obtain ⟨hPw, hBound, hIdle⟩ := hInv
  cases a with
  | submit t =>
    cases hc : s.control with
    | idle =>
      have hq : s.queue = [] := hIdle hc
      simp only [turnStep, hc]
      refine ⟨⟨?_, ?_, by simp⟩, ?_⟩
      · rw [List.pairwise_append]
        refine ⟨hPw, by simp, ?_⟩
        intro m hm b hb
        simp only [List.mem_singleton] at hb
        subst hb
        exact le_trans (hBound m hm) (by simp)
      · intro m hm
        rcases List.mem_append.mp hm with h1 | h1
        · exact le_trans (hBound m h1) (by simp)
        · simp only [List.mem_singleton] at h1
          subst h1
          simp
      · simp [userTexts_append, userTexts, hq, submittedTexts]
    | awaitReply k =>
      simp only [turnStep, hc]
      refine ⟨⟨hPw, hBound, by simp⟩, ?_⟩
      simp [submittedTexts]
  | reply r =>
    cases hc : s.control with
    | idle =>
      simp only [turnStep, hc]
      exact ⟨⟨hPw, hBound, hIdle⟩, by simp [submittedTexts]⟩
    | awaitReply k =>
      simp only [turnStep, hc]
      have hs1Pw : (s.log ++ (if r.text = "" then [] else
          [(s.turn, Msg.assistantMsg r.text)])).Pairwise
            (fun a b => a.1 ≤ b.1) := by
        rw [List.pairwise_append]
        refine ⟨hPw, by split <;> simp, ?_⟩
        intro m hm b hb
        split at hb
        · exact absurd hb (List.not_mem_nil b)
        · rw [List.mem_singleton] at hb
          subst hb
          exact hBound m hm
      have hs1Bound : ∀ m ∈ s.log ++ (if r.text = "" then [] else
          [(s.turn, Msg.assistantMsg r.text)]), m.1 ≤ s.turn := by
        intro m hm
        rcases List.mem_append.mp hm with h1 | h1
        · exact hBound m h1
        · split at h1
          · exact absurd h1 (List.not_mem_nil m)
          · rw [List.mem_singleton] at h1
            subst h1
            simp
      obtain ⟨dt, ⟨d, hd, hdp, hdb⟩, du, dq⟩ := driveFrames_spec (r.tools :: k)
        { control := TurnControl.awaitReply k, queue := s.queue,
          files := s.files,
          log := s.log ++
            if r.text = "" then [] else [(s.turn, Msg.assistantMsg r.text)],
          turn := s.turn }
      refine ⟨⟨?_, ?_, dq⟩, ?_⟩
      · rw [hd, List.pairwise_append]
        exact ⟨hs1Pw, hdp, fun m hm b hb => le_trans (hs1Bound m hm) (hdb b hb).1⟩
      · intro m hm
        rw [hd] at hm
        rcases List.mem_append.mp hm with h1 | h1
        · exact le_trans (hs1Bound m h1) dt
        · exact (hdb m h1).2
      · rw [du]
        show userTexts (s.log ++ _) ++ s.queue = _
        rw [userTexts_append]
        have hu : userTexts (if r.text = "" then ([] : List (Nat × Msg)) else
            [(s.turn, Msg.assistantMsg r.text)]) = [] := by
          split <;> simp [userTexts]
        rw [hu]
        simp [submittedTexts]

/-- Running a trace from an invariant state preserves the invariant and
appends exactly the trace's submissions to "user messages then queued
texts". -/
theorem runActions_spec (acts : List TurnAction) :
    ∀ s : SysState, SysInv s →
      SysInv (runActions acts s) ∧
      userTexts (runActions acts s).log ++ (runActions acts s).queue
        = (userTexts s.log ++ s.queue) ++ submittedTexts acts := by
  induction acts with
  | nil => intro s h; exact ⟨h, by simp [runActions, submittedTexts]⟩
  | cons a rest ih =>
    intro s h
    obtain ⟨h1, h2⟩ := turnStep_spec s a h
    obtain ⟨h3, h4⟩ := ih (turnStep s a) h1
    refine ⟨by simpa [runActions] using h3, ?_⟩
    have : runActions (a :: rest) s = runActions rest (turnStep s a) := by
      simp [runActions]
    rw [this, h4, h2]
    cases a <;> simp [submittedTexts]

/-- **C8.**  For every sequence of submissions and completion replies, at
most one turn is active at a time and turns never interleave: the log's
turn tags are non-decreasing (so each turn's messages — user, assistant,
tool_call, tool_result — form one contiguous block, and no two turns'
tool calls interleave), and submissions are served FIFO: the user
messages started so far followed by the still-queued texts equal exactly
the submitted texts in submission order. -/
theorem single_active_turn_fifo (acts : List TurnAction) (files0 : FileMap) :
    (runActions acts (initSys files0)).log.Pairwise (fun a b => a.1 ≤ b.1) ∧
    userTexts (runActions acts (initSys files0)).log
        ++ (runActions acts (initSys files0)).queue
      = submittedTexts acts := by
  have h := runActions_spec acts (initSys files0)
    (by refine ⟨by simp [initSys], by simp [initSys], by simp [initSys]⟩)
  exact ⟨h.1.1, by simpa [initSys, userTexts] using h.2⟩

end SandpackChat
